import Mathlib

/-!
Verification of the auth-detector detection pipeline.

This file gives a shallow embedding, in Lean 4, of the detection-and-extraction
pipeline of the repository:

* the pattern-matching fallback detector (`runPatternDetection`), including
  faithful executable semantics of the regular expressions it tests against the
  raw HTML text;
* the deduplicator (`removeDuplicates`) with its `type : snippet-head` key;
* the snippet extraction step (`extractSnippetsFromPage`), with the live
  browser page and the overall-ceiling race modelled by explicit oracles
  (`trySel` for selector resolution, `fb` for the fallback chains, and a
  boolean `timedOut` recording which side of the race won);
* AI response parsing (`parseAIOutput`), with the platform JSON parser
  modelled as an oracle `jp` returning the dynamically-read fields, and the
  inference call modelled as an `Except` value (transport and timeout
  failures are its `error` case);
* the entry point `detectAuthentication` with its AI-to-pattern fallback;
* the heuristic scorer `getElementInfo` over a single DOM element; and
* the lowest-common-ancestor computation `findLCA`, with DOM nodes of one
  parsed tree modelled by their root paths (lists of child indices), so that
  the cheerio `parents()` chain of a node is the list of its proper path
  prefixes ordered from the immediate parent up to the root.

Regular expressions from the source are embedded as executable matchers over
`List Char`; each matcher is a direct transcription of the regex search
(try every start position, character classes as boolean tests on characters,
case-insensitive literals matched through `Char.toLower`).
-/

/-! ### Character and string utilities -/

/-- The left brace character, written by code so it can appear in match arms. -/
def lbChar : Char := Char.ofNat 123

/-- The right brace character. -/
def rbChar : Char := Char.ofNat 125

/-- The apostrophe (single-quote) character. -/
def sqChar : Char := Char.ofNat 39

/-- JavaScript whitespace class `\s` membership (the code points tested by the
regexes of the source). -/
def isJsWs (c : Char) : Bool :=
  c == ' ' || c == Char.ofNat 9 || c == Char.ofNat 10 || c == Char.ofNat 11 ||
  c == Char.ofNat 12 || c == Char.ofNat 13 || c == Char.ofNat 0xa0 ||
  c == Char.ofNat 0x1680 || (0x2000 ≤ c.toNat && c.toNat ≤ 0x200a) ||
  c == Char.ofNat 0x2028 || c == Char.ofNat 0x2029 || c == Char.ofNat 0x202f ||
  c == Char.ofNat 0x205f || c == Char.ofNat 0x3000 || c == Char.ofNat 0xfeff

/-- JavaScript line-terminator class (the characters NOT matched by `.`). -/
def isLineTerm (c : Char) : Bool :=
  c == Char.ofNat 10 || c == Char.ofNat 13 || c == Char.ofNat 0x2028 ||
  c == Char.ofNat 0x2029

/-- `listStartsWith pat s` holds when `s` begins with the exact characters of
`pat`. -/
def listStartsWith : List Char → List Char → Bool
  | [], _ => true
  | _ :: _, [] => false
  | p :: ps, c :: cs => p == c && listStartsWith ps cs

/-- `listStartsWithCI pat s`: `s` begins with `pat` up to ASCII case
(`pat` is a lower-case literal from a case-insensitive regex). -/
def listStartsWithCI : List Char → List Char → Bool
  | [], _ => true
  | _ :: _, [] => false
  | p :: ps, c :: cs => p == c.toLower && listStartsWithCI ps cs

/-- Exact substring test. -/
def listHas (pat : List Char) (s : List Char) : Bool :=
  s.tails.any (listStartsWith pat)

/-- Case-insensitive substring test (regex literal search under the `i` flag). -/
def listHasCI (pat : List Char) (s : List Char) : Bool :=
  s.tails.any (listStartsWithCI pat)

/-- Lower-casing of a string, character by character (JavaScript
`toLowerCase`, restricted to the ASCII case folding used by the detector
keywords). -/
def lowerStr (s : String) : String := String.mk (s.data.map Char.toLower)

/-- Exact substring test on strings (JavaScript `String.prototype.includes`). -/
def strIncludes (s pat : String) : Bool := listHas pat.data s.data

/-! ### Data model (auth.types)

`AuthComponent.details` carries the union of the type-dependent fields of the
source's `details` object; absent object properties are `none`. -/

structure AuthDetails where
  fields : Option (List String) := none
  providers : Option (List String) := none
  method : Option String := none
  playwrightSelector : Option String := none
  deriving Repr, DecidableEq

structure AuthComponent where
  type : String
  details : AuthDetails := {}
  snippet : Option String := none
  deriving Repr, DecidableEq

structure DetectionResult where
  success : Bool
  url : String
  found : Bool
  components : List AuthComponent
  detectionMethod : String
  deriving Repr, DecidableEq

/-- The parsed AI response consumed by `runAIDetection`. -/
structure AIDetectionResponse where
  found : Bool
  components : List AuthComponent
  deriving Repr, DecidableEq

/-! ### Embedded regular expressions of `runPatternDetection`

The traditional-auth test of the source is
`/<form[^>]*>[\s\S]*?<input[^>]*type=["']password["'][\s\S]*?<\/form>/i`
together with `/(?:sign\s*in|log\s*in|login)/i`; the OAuth test is, per
provider `p`, `(?:sign|log|continue).*p|p.*(?:sign|log|continue)` (flag `i`,
`.` not matching line terminators); the passwordless test is
`/passkey|webauthn|magic.*link|otp|one.*time/i`. -/

def formOpenLit : List Char := "<form".data

def formCloseLit : List Char := "</form>".data

def inputOpenLit : List Char := "<input".data

def typeEqLit : List Char := "type=".data

def passwordLit : List Char := "password".data

/-- Is this character one of the quote characters of the class `["']`? -/
def isQuoteChar (c : Char) : Bool := c == '"' || c == sqChar

/-- Does `type=["']password["']` (case-insensitive in the letters) start
here?  This token is 15 characters long. -/
def pwdTokenAt (l : List Char) : Bool :=
  listStartsWithCI typeEqLit l &&
  (match l.drop 5 with
   | q1 :: r1 =>
     isQuoteChar q1 && listStartsWithCI passwordLit r1 &&
     (match r1.drop 8 with
      | q2 :: _ => isQuoteChar q2
      | [] => false)
   | [] => false)

/-- Drop characters through the first `>`; `none` when no `>` remains.
This is the deterministic reading of `[^>]*>` in a regex. -/
def skipUntilGt : List Char → Option (List Char)
  | [] => none
  | c :: r => if c == '>' then some r else skipUntilGt r

/-- Scan a `[^>]*` gap for the `type=["']password["']` token; stop at `>`.
Returns the characters after the token on success. -/
def gapFindPwd : List Char → Option (List Char)
  | [] => none
  | c :: r =>
    if pwdTokenAt (c :: r) then some ((c :: r).drop 15)
    else if c == '>' then none
    else gapFindPwd r

/-- Executable semantics of
`/<form[^>]*>[\s\S]*?<input[^>]*type=["']password["'][\s\S]*?<\/form>/i`. -/
def tradFormRegexTest (s : List Char) : Bool :=
  s.tails.any fun t1 =>
    listStartsWithCI formOpenLit t1 &&
    (match skipUntilGt (t1.drop 5) with
     | none => false
     | some r2 =>
       r2.tails.any fun t3 =>
         listStartsWithCI inputOpenLit t3 &&
         (match gapFindPwd (t3.drop 6) with
          | none => false
          | some r4 => listHasCI formCloseLit r4))

/-- Executable semantics of `/(?:sign\s*in|log\s*in|login)/i`: a stem
(`sign` or `log`) followed by optional whitespace and `in` (the `login`
alternative is the zero-whitespace case of the `log` branch). -/
def signInRegexTest (s : List Char) : Bool :=
  s.tails.any fun t =>
    (listStartsWithCI "sign".data t &&
      listStartsWithCI "in".data ((t.drop 4).dropWhile isJsWs)) ||
    (listStartsWithCI "log".data t &&
      listStartsWithCI "in".data ((t.drop 3).dropWhile isJsWs)) ||
    listStartsWithCI "login".data t

/-- The three action stems of the per-provider OAuth regex. -/
def oauthVerbLits : List (List Char) := ["sign".data, "log".data, "continue".data]

/-- Executable semantics of
`(?:sign|log|continue).*p|p.*(?:sign|log|continue)` with flag `i` (where `.`
does not cross line terminators): the provider name and one of the verbs
co-occur, in either order, with no line terminator between them. -/
def oauthCoOccur (p : List Char) (s : List Char) : Bool :=
  s.tails.any fun t =>
    (oauthVerbLits.any fun v =>
       listStartsWithCI v t &&
       listHasCI p ((t.drop v.length).takeWhile (fun c => !isLineTerm c))) ||
    (listStartsWithCI p t &&
     (oauthVerbLits.any fun v =>
        listHasCI v ((t.drop p.length).takeWhile (fun c => !isLineTerm c))))

/-- Two literals with an any-but-newline gap (`a.*b` under flag `i`). -/
def gapSeqTest (a b : List Char) (s : List Char) : Bool :=
  s.tails.any fun t =>
    listStartsWithCI a t &&
    listHasCI b ((t.drop a.length).takeWhile (fun c => !isLineTerm c))

/-- Executable semantics of `/passkey|webauthn|magic.*link|otp|one.*time/i`. -/
def passwordlessRegexTest (s : List Char) : Bool :=
  listHasCI "passkey".data s || listHasCI "webauthn".data s ||
  gapSeqTest "magic".data "link".data s || listHasCI "otp".data s ||
  gapSeqTest "one".data "time".data s

/-- Executable semantics of `/magic.*link/i` (used for the method choice). -/
def magicLinkRegexTest (s : List Char) : Bool :=
  gapSeqTest "magic".data "link".data s

/-! ### Pattern detection pipeline (src/unnamed/part_003)

The live Playwright page is external to the core; selector resolution against
it is modelled by an oracle `trySel : String → Option String` (the outer HTML
of the first visible match, or `none`, exactly the contract of `trySelector`,
which swallows its own errors), and the type-specific fallback chains of
`runFallbackExtraction` by an oracle `fb : AuthComponent → String` (those
chains always return a string, with a placeholder comment on failure).  The
`Promise.race` of `extractSnippetsFromPage` against the 35-second ceiling is
decided by a boolean `timedOut`: which side of the race won. -/

def HTML_LIMITS_maxSnippet : Nat := 1500

/-- `truncate` of the source: cut at 1500 characters and append an ellipsis
marker. -/
def truncate (html : String) : String :=
  if html.length > HTML_LIMITS_maxSnippet
  then String.mk (html.data.take HTML_LIMITS_maxSnippet) ++ "..."
  else html

/-- `extractOne` of `extractSnippetsFromPage`: resolve the component's
selector, falling back to the type-specific chain, always attaching a
snippet. -/
def extractOne (trySel : String → Option String) (fb : AuthComponent → String)
    (comp : AuthComponent) : AuthComponent :=
  match comp.details.playwrightSelector with
  | none => { comp with snippet := some ("<!-- " ++ comp.type ++ " detected, no selector -->") }
  | some sel =>
    match trySel sel with
    | some html => { comp with snippet := some (truncate html) }
    | none => { comp with snippet := some (fb comp) }

/-- The placeholder attached to every candidate when the overall extraction
ceiling is reached first. -/
def timeoutSnippet (c : AuthComponent) : AuthComponent :=
  { c with snippet := some ("<!-- " ++ c.type ++ " detected (timeout) -->") }

/-- `extractSnippetsFromPage`: resolve all candidates, racing against the
overall ceiling; the losing side's work is discarded. -/
def extractSnippetsFromPage (trySel : String → Option String)
    (fb : AuthComponent → String) (timedOut : Bool)
    (components : List AuthComponent) : List AuthComponent :=
  if timedOut then components.map timeoutSnippet
  else components.map (extractOne trySel fb)

/-- The snippet part of the deduplication key:
`snippet?.slice(0,100) || "no-snippet"` (an absent snippet, and an empty one,
which is falsy in JavaScript, both give `no-snippet`). -/
def dedupSnipPart (c : AuthComponent) : String :=
  match c.snippet with
  | none => "no-snippet"
  | some s => if s == "" then "no-snippet" else String.mk (s.data.take 100)

/-- The deduplication key of `removeDuplicates`:
`type ++ ":" ++ (snippet?.slice(0,100) || "no-snippet")`. -/
def dedupKey (c : AuthComponent) : String :=
  c.type ++ ":" ++ dedupSnipPart c

/-- The filter loop of `removeDuplicates`, with the `seen` set as a list of
keys. -/
def dedupGo (seen : List String) : List AuthComponent → List AuthComponent
  | [] => []
  | c :: cs =>
    if seen.contains (dedupKey c) then dedupGo seen cs
    else c :: dedupGo (dedupKey c :: seen) cs

/-- `removeDuplicates`: keep the first occurrence of each key, in order. -/
def removeDuplicates (components : List AuthComponent) : List AuthComponent :=
  dedupGo [] components

/-- The fixed provider list of the pattern-detection OAuth rule. -/
def oauthPatternProviders : List String :=
  ["google", "facebook", "github", "twitter", "apple", "microsoft", "linkedin"]

/-- The candidate components assembled by `runPatternDetection` before
snippet extraction: at most one component per type, pushed in the order
traditional, oauth, passwordless. -/
def patternCandidates (html : List Char) : List AuthComponent :=
  let c1 : List AuthComponent :=
    if tradFormRegexTest html || signInRegexTest html then
      [{ type := "traditional",
         details := { fields := some ["email", "password"],
                      playwrightSelector := some "form:has(input[type=\"password\"])" } }]
    else []
  let foundProviders := oauthPatternProviders.filter (fun p => oauthCoOccur p.data html)
  let c2 : List AuthComponent :=
    match foundProviders with
    | [] => []
    | p0 :: _ =>
      [{ type := "oauth",
         details := { providers := some foundProviders,
                      playwrightSelector := some ("button:has-text(\"" ++ p0 ++ "\")") } }]
  let c3 : List AuthComponent :=
    if passwordlessRegexTest html then
      let method :=
        if listHasCI "passkey".data html then "passkey"
        else if magicLinkRegexTest html then "magic-link"
        else "otp"
      [{ type := "passwordless",
         details := { method := some method,
                      playwrightSelector := some ("button:has-text(\"" ++ method ++ "\")") } }]
    else []
  c1 ++ c2 ++ c3

/-- `runPatternDetection`: assemble candidates from the raw markup, enrich
them against the live page, deduplicate, and report `found` as emptiness of
the surviving list. -/
def runPatternDetection (trySel : String → Option String)
    (fb : AuthComponent → String) (timedOut : Bool)
    (html : List Char) (url : String) : DetectionResult :=
  let components := patternCandidates html
  let enriched := extractSnippetsFromPage trySel fb timedOut components
  let unique := removeDuplicates enriched
  { success := true, url := url, found := decide (0 < unique.length),
    components := unique, detectionMethod := "pattern" }

/-! ### AI response parsing (`parseAIOutput`)

`text.match(/\{[\s\S]*\}/)` returns, when the text has a left brace with some
right brace after it, the span from the first left brace through the last
right brace.  The three chained `replace` calls strip trailing commas before
a closing bracket, line comments, and block comments.  `JSON.parse` is a
platform builtin, modelled by an oracle `jp` returning the two dynamically
read fields: the truthiness of `data.found`, and `data.components` when it is
an array. -/

/-- The match of `/\{[\s\S]*\}/`: drop through the first left brace from the
left and through the last right brace from the right. -/
def extractJsonRegion (s : List Char) : Option (List Char) :=
  let t := s.dropWhile (fun c => c != lbChar)
  let u := (t.reverse.dropWhile (fun c => c != rbChar)).reverse
  if u.isEmpty then none else some u


/-- One global pass of `.replace(/,(\s*[}\]])/g, "$1")`: a comma followed by
whitespace and a closing bracket is dropped, scanning resuming after the
bracket.  The fuel argument (instantiated with the input length, which every
step decreases) keeps the recursion structural so that the function
evaluates by kernel reduction. -/
def stripCommasF : Nat → List Char → List Char
  | 0, l => l
  | _ + 1, [] => []
  | n + 1, c :: r =>
    if c == ',' then
      match r.dropWhile isJsWs with
      | d :: r2 =>
        if d == rbChar || d == ']' then (r.takeWhile isJsWs) ++ d :: stripCommasF n r2
        else c :: stripCommasF n r
      | [] => c :: stripCommasF n r
    else c :: stripCommasF n r

/-- The comma-stripping pass at adequate fuel. -/
def stripCommas (l : List Char) : List Char := stripCommasF l.length l

/-- One global pass of `.replace(/\/\/.*$/gm, "")`: `//` through the end of
the line is dropped.  Fueled as `stripCommasF`. -/
def stripLineCommentsF : Nat → List Char → List Char
  | 0, l => l
  | _ + 1, [] => []
  | n + 1, '/' :: '/' :: r => stripLineCommentsF n (r.dropWhile (fun c => !isLineTerm c))
  | n + 1, c :: r => c :: stripLineCommentsF n r

/-- The line-comment pass at adequate fuel. -/
def stripLineComments (l : List Char) : List Char := stripLineCommentsF l.length l

/-- Find the first `*/` and return what follows it. -/
def findStarSlash : List Char → Option (List Char)
  | '*' :: '/' :: r => some r
  | _ :: r => findStarSlash r
  | [] => none

/-- One global pass of `.replace(/\/\*[\s\S]*?\*\//g, "")`: `/*` through the
first following `*/` is dropped; an unterminated `/*` does not match and
scanning continues one character later.  Fueled as `stripCommasF`. -/
def stripBlockCommentsF : Nat → List Char → List Char
  | 0, l => l
  | _ + 1, [] => []
  | n + 1, '/' :: '*' :: r =>
    (match findStarSlash r with
     | some rest => stripBlockCommentsF n rest
     | none => '/' :: stripBlockCommentsF n ('*' :: r))
  | n + 1, c :: r => c :: stripBlockCommentsF n r

/-- The block-comment pass at adequate fuel. -/
def stripBlockComments (l : List Char) : List Char := stripBlockCommentsF l.length l

/-- The cleaning chain applied by `parseAIOutput` to the extracted region. -/
def cleanJson (l : List Char) : List Char :=
  stripBlockComments (stripLineComments (stripCommas l))

/-- The two fields of a `JSON.parse` result that `parseAIOutput` reads:
the truthiness of `data.found`, and `data.components` when `Array.isArray`
holds of it (`none` otherwise).  A value of this shape per parseable string
is what the platform JSON parser contributes to the pipeline. -/
structure ParsedAI where
  foundTruthy : Bool
  componentsArr : Option (List AuthComponent)

/-- `parseAIOutput`: extract the brace region, clean it, parse it with the
platform parser `jp`; a missing region or a parse failure throws. -/
def parseAIOutput (jp : String → Option ParsedAI) (text : String) :
    Except String AIDetectionResponse :=
  match extractJsonRegion text.data with
  | none => .error "No JSON in AI response"
  | some region =>
    match jp (String.mk (cleanJson region)) with
    | none => .error "JSON parse failed"
    | some data =>
      .ok { found := data.foundTruthy, components := data.componentsArr.getD [] }

/-! ### AI detection and the entry point (src/unnamed/part_003)

The inference call `model.generateContent(...).response.text()` under its
60-second budget is modelled by `aiResp : Except String String`: `error` for
a timeout or transport failure, `ok text` for a delivered response. -/

/-- `runAIDetection`: deliver the response text, parse it, enrich and
deduplicate the parsed components; any failure escapes as `error`. -/
def runAIDetectionE (jp : String → Option ParsedAI)
    (trySel : String → Option String) (fb : AuthComponent → String)
    (timedOut : Bool) (aiResp : Except String String) (url : String) :
    Except String DetectionResult :=
  match aiResp with
  | .error e => .error e
  | .ok text =>
    match parseAIOutput jp text with
    | .error e => .error e
    | .ok aiData =>
      let enriched := extractSnippetsFromPage trySel fb timedOut aiData.components
      let unique := removeDuplicates enriched
      .ok { success := true, url := url, found := aiData.found,
            components := unique, detectionMethod := "ai" }

/-- `detectAuthentication`: try the AI path when an API key is configured;
on any failure of that path, or with no key, fall back to pattern
detection. -/
def detectAuthentication (apiKey : Option String)
    (jp : String → Option ParsedAI) (trySel : String → Option String)
    (fb : AuthComponent → String) (timedOut : Bool)
    (aiResp : Except String String) (html : List Char) (url : String) :
    DetectionResult :=
  match apiKey with
  | some _ =>
    match runAIDetectionE jp trySel fb timedOut aiResp url with
    | .ok r => r
    | .error _ => runPatternDetection trySel fb timedOut html url
  | none => runPatternDetection trySel fb timedOut html url

/-! ### The heuristic scorer (src/unnamed/part_002, `getElementInfo`) -/

/-- The fixed provider list of the scoring engine. -/
def OAUTH_PROVIDERS : List String :=
  ["google", "apple", "facebook", "microsoft", "github", "gitlab", "okta",
   "auth0", "linkedin", "twitter", "bitbucket", "sso"]

/-- The action keywords of the scoring engine. -/
def ACTION_KEYWORDS : List String :=
  ["sign", "log", "continue", "auth", "connect", "login", "account", "identity"]

/-- One DOM element as the scorer sees it: tag name, attribute map in
insertion order, and the rendered text content. -/
structure DomElem where
  name : String
  attribs : List (String × String)
  text : String

/-- The scorer's result record. -/
structure ElemInfo where
  score : Nat
  type : String
  brand : Option String := none
  deriving Repr, DecidableEq

/-- JavaScript `values.join(" ")`. -/
def joinSpace : List String → String
  | [] => ""
  | v :: vs => vs.foldl (fun acc w => acc ++ " " ++ w) v

/-- The lower-cased text content of the element. -/
def elText (el : DomElem) : String := lowerStr el.text

/-- The combined attribute-values-plus-text string the scorer searches:
`(Object.values(attribs).join(" ") + " " + text).toLowerCase()`. -/
def elCombined (el : DomElem) : String :=
  lowerStr (joinSpace (el.attribs.map (fun a => a.2)) ++ " " ++ elText el)

/-- `getElementInfo`: provider check first (short-circuiting as OAUTH), then
the input checks, then the interactive-element action check. -/
def getElementInfo (el : DomElem) : ElemInfo :=
  let text := elText el
  let combined := elCombined el
  let s0 : ElemInfo := { score := 0, type := "UNKNOWN", brand := none }
  let s1 : ElemInfo :=
    match OAUTH_PROVIDERS.find? (fun p => strIncludes combined p) with
    | some p =>
      let isAction := ACTION_KEYWORDS.any (fun k => strIncludes combined k)
      { score := s0.score + (if isAction then 25 else 15), type := "OAUTH",
        brand := some p }
    | none => s0
  let s2 : ElemInfo :=
    if s1.type == "UNKNOWN" && el.name == "input" then
      let inputType := (el.attribs.lookup "type").map lowerStr
      if inputType == some "password" || strIncludes combined "password" then
        { s1 with score := s1.score + 30, type := "TRADITIONAL" }
      else if strIncludes combined "email" || strIncludes combined "username" ||
          inputType == some "email" then
        { s1 with score := s1.score + 20, type := "TRADITIONAL" }
      else s1
    else s1
  if s2.type == "UNKNOWN" &&
      (el.name == "button" || el.attribs.lookup "role" == some "button" ||
       el.name == "a") then
    if ACTION_KEYWORDS.any (fun k => strIncludes text k) && text.length < 30 then
      { s2 with score := s2.score + 12, type := "ACTION" }
    else s2
  else s2

/-! ### Lowest common ancestor (src/unnamed/part_002, `findLCA`)

Nodes of one parsed document tree are modelled by their root paths (the list
of child indices from the root); node identity is path equality, and the
proper ancestors of a node are the proper prefixes of its path.  Cheerio's
`parents()` lists them from the immediate parent up to the root, i.e. from
the longest proper prefix down to the empty path. -/

/-- The proper prefixes of a path, shortest first. -/
def ancChain : List Nat → List (List Nat)
  | [] => []
  | x :: xs => [] :: (ancChain xs).map (fun p => x :: p)

/-- Cheerio `parents()`: proper ancestors from the immediate parent to the
root. -/
def parentsOf (p : List Nat) : List (List Nat) := (ancChain p).reverse

/-- `findLCA`: intersect the ancestor chains of all the elements (preserving
the first chain's closest-first order) and take the first element of the
intersection.  The one-element case of the source returns the node's parent;
an empty selection is `none`. -/
def findLCA : List (List Nat) → Option (List Nat)
  | [] => none
  | [e] => if e.isEmpty then none else some e.dropLast
  | e0 :: rest =>
    (rest.foldl (fun acc e => acc.filter (fun q => decide (q ∈ parentsOf e)))
      (parentsOf e0)).head?

/-! ### A model of serialized HTML documents (for C3)

The pattern detector runs on the raw markup string.  To state "the document
contains a `form` element enclosing a password input" structurally, documents
are modelled as trees and serialized by `renderNode`; attribute values are
rendered double-quoted.  `hasPwdForm` is the structural reading of the claim
(a `form` element enclosing an `input` that carries `type="password"`);
`hasCleanPwdForm` additionally asks that the attribute text rendered before
that `type="password"` attribute inside the input tag be free of the `>`
character — the one condition the regex's `[^>]*` gap imposes, and the one
the C3 counterexample violates. -/

mutual
inductive HNode where
  | elem (tag : String) (attrs : List (String × String)) (children : HForest)
  | text (s : String)
inductive HForest where
  | nil
  | cons (h : HNode) (t : HForest)
end

/-- Render an attribute list as ` name="value"` segments. -/
def renderAttrs : List (String × String) → List Char
  | [] => []
  | (n, v) :: rest => ' ' :: n.data ++ '=' :: '"' :: v.data ++ '"' :: renderAttrs rest

mutual
/-- Serialize a node: `<tag attrs>children</tag>` (or the bare text). -/
def renderNode : HNode → List Char
  | .elem tag attrs children =>
    '<' :: tag.data ++ renderAttrs attrs ++ '>' ::
      (renderForest children ++ '<' :: '/' :: tag.data ++ ['>'])
  | .text s => s.data

/-- Serialize a forest by concatenation. -/
def renderForest : HForest → List Char
  | .nil => []
  | .cons h t => renderNode h ++ renderForest t
end

mutual
/-- Does the subtree contain an `input` element carrying
`type="password"`? -/
def containsPwdInput : HNode → Bool
  | .elem tag attrs children =>
    (tag == "input" && attrs.contains ("type", "password")) ||
      containsPwdInputF children
  | .text _ => false

/-- Forest version of `containsPwdInput`. -/
def containsPwdInputF : HForest → Bool
  | .nil => false
  | .cons h t => containsPwdInput h || containsPwdInputF t
end

mutual
/-- Does the subtree contain a `form` element that encloses (strictly
inside it) a password input? -/
def hasPwdForm : HNode → Bool
  | .elem tag attrs children =>
    (tag == "form" && containsPwdInputF children) || hasPwdFormF children
  | .text _ => false

/-- Forest version of `hasPwdForm`. -/
def hasPwdFormF : HForest → Bool
  | .nil => false
  | .cons h t => hasPwdForm h || hasPwdFormF t
end

/-- A string whose characters avoid `>`. -/
def gtFreeStr (s : String) : Bool := s.data.all (fun c => c != '>')

/-- The attribute list carries a `type="password"` entry, and every
attribute before it is free of `>` in its name and value (so the rendered
input tag has no `>` between `<input` and the type attribute). -/
def cleanPwdAttrs : List (String × String) → Bool
  | [] => false
  | (n, v) :: rest =>
    (n == "type" && v == "password") ||
      (gtFreeStr n && gtFreeStr v && cleanPwdAttrs rest)

mutual
/-- Does the subtree contain an `input` element whose `type="password"`
attribute is preceded only by `>`-free attribute text? -/
def containsCleanPwdInput : HNode → Bool
  | .elem tag attrs children =>
    (tag == "input" && cleanPwdAttrs attrs) || containsCleanPwdInputF children
  | .text _ => false

/-- Forest version of `containsCleanPwdInput`. -/
def containsCleanPwdInputF : HForest → Bool
  | .nil => false
  | .cons h t => containsCleanPwdInput h || containsCleanPwdInputF t
end

mutual
/-- Does the subtree contain a `form` element that encloses a clean
password input? -/
def hasCleanPwdForm : HNode → Bool
  | .elem tag attrs children =>
    (tag == "form" && containsCleanPwdInputF children) || hasCleanPwdFormF children
  | .text _ => false

/-- Forest version of `hasCleanPwdForm`. -/
def hasCleanPwdFormF : HForest → Bool
  | .nil => false
  | .cons h t => hasCleanPwdForm h || hasCleanPwdFormF t
end

/-! ### Deduplicator lemmas and C4 -/

theorem dedupGo_sub : ∀ (seen : List String) (cs : List AuthComponent)
    (c : AuthComponent), c ∈ dedupGo seen cs → c ∈ cs := by
  intro seen cs
  induction cs generalizing seen with
  | nil => intro c h; simp [dedupGo] at h
  | cons a cs ih =>
    intro c h
    simp only [dedupGo] at h
    split at h
    · exact List.mem_cons_of_mem a (ih seen c h)
    · rcases List.mem_cons.mp h with h1 | h2
      · exact h1 ▸ List.mem_cons_self a cs
      · exact List.mem_cons_of_mem a (ih _ c h2)

theorem dedupGo_key_unseen : ∀ (cs : List AuthComponent) (seen : List String)
    (k : String), k ∈ (dedupGo seen cs).map dedupKey → k ∉ seen := by
  intro cs
  induction cs with
  | nil => intro seen k h; simp [dedupGo] at h
  | cons c cs ih =>
    intro seen k h
    simp only [dedupGo] at h
    split at h
    · exact ih seen k h
    · rename_i hc
      simp only [List.map_cons, List.mem_cons] at h
      rcases h with h1 | h2
      · subst h1
        intro hmem
        have hcont : seen.contains (dedupKey c) = true :=
          List.contains_iff_exists_mem_beq.mpr ⟨dedupKey c, hmem, by simp⟩
        rw [hcont] at hc
        exact absurd rfl hc
      · have := ih (dedupKey c :: seen) k h2
        intro hmem
        exact this (List.mem_cons_of_mem _ hmem)

theorem dedupGo_nodupKeys : ∀ (cs : List AuthComponent) (seen : List String),
    ((dedupGo seen cs).map dedupKey).Nodup := by
  intro cs
  induction cs with
  | nil => intro seen; simp [dedupGo]
  | cons c cs ih =>
    intro seen
    simp only [dedupGo]
    split
    · exact ih seen
    · simp only [List.map_cons, List.nodup_cons]
      refine ⟨fun hmem => ?_, ih _⟩
      exact dedupGo_key_unseen cs (dedupKey c :: seen) (dedupKey c) hmem
        (List.mem_cons_self _ _)

theorem dedupGo_eq_self : ∀ (cs : List AuthComponent) (seen : List String),
    (cs.map dedupKey).Nodup → (∀ k ∈ cs.map dedupKey, k ∉ seen) →
    dedupGo seen cs = cs := by
  intro cs
  induction cs with
  | nil => intro seen _ _; simp [dedupGo]
  | cons c cs ih =>
    intro seen hnd hout
    have hkc : dedupKey c ∉ seen := hout (dedupKey c) (by simp)
    have hcont : seen.contains (dedupKey c) = false := by
      by_contra hx
      simp only [Bool.not_eq_false] at hx
      rcases List.contains_iff_exists_mem_beq.mp hx with ⟨a, ha, hbeq⟩
      exact hkc ((beq_iff_eq.mp hbeq) ▸ ha)
    simp only [dedupGo, hcont, if_false, Bool.false_eq_true]
    congr 1
    apply ih
    · exact (List.nodup_cons.mp (by simpa using hnd)).2
    · intro k hk
      simp only [List.mem_cons]
      rintro (h1 | h2)
      · subst h1
        exact (List.nodup_cons.mp (by simpa using hnd)).1 hk
      · exact hout k (List.mem_cons_of_mem _ hk) h2

/-- C4: `removeDuplicates` is idempotent — applied to its own output (whose
keys, built from the component type and the first 100 characters of the
snippet with a per-type no-snippet bucket, are pairwise distinct and whose
first occurrences were kept in order) it returns that output unchanged. -/
theorem removeDuplicates_idempotent (cs : List AuthComponent) :
    removeDuplicates (removeDuplicates cs) = removeDuplicates cs := by
  unfold removeDuplicates
  exact dedupGo_eq_self (dedupGo [] cs) [] (dedupGo_nodupKeys cs []) (by simp)

/-! ### Snippet extraction lemmas and C8 -/

theorem extractOne_type_details (trySel : String → Option String)
    (fb : AuthComponent → String) (c : AuthComponent) :
    (extractOne trySel fb c).type = c.type ∧
    (extractOne trySel fb c).details = c.details := by
  unfold extractOne
  split
  · exact ⟨rfl, rfl⟩
  · split
    · exact ⟨rfl, rfl⟩
    · exact ⟨rfl, rfl⟩

theorem timeoutSnippet_type_details (c : AuthComponent) :
    (timeoutSnippet c).type = c.type ∧ (timeoutSnippet c).details = c.details :=
  ⟨rfl, rfl⟩

/-- C8: snippet resolution over a batch returns exactly one output component
per input candidate — same length, and position by position the same type and
details, so no candidate is dropped — and when the overall extraction ceiling
is reached first, every candidate not carrying a resolved snippet (in that
branch, all of them) receives the timeout placeholder snippet. -/
theorem extractSnippets_one_per_candidate (trySel : String → Option String)
    (fb : AuthComponent → String) (timedOut : Bool) (cs : List AuthComponent) :
    (extractSnippetsFromPage trySel fb timedOut cs).length = cs.length ∧
    (∀ i (h1 : i < (extractSnippetsFromPage trySel fb timedOut cs).length)
       (h2 : i < cs.length),
       ((extractSnippetsFromPage trySel fb timedOut cs).get ⟨i, h1⟩).type =
         (cs.get ⟨i, h2⟩).type ∧
       ((extractSnippetsFromPage trySel fb timedOut cs).get ⟨i, h1⟩).details =
         (cs.get ⟨i, h2⟩).details) ∧
    (timedOut = true → ∀ c ∈ extractSnippetsFromPage trySel fb timedOut cs,
       c.snippet = some ("<!-- " ++ c.type ++ " detected (timeout) -->")) := by
  refine ⟨?_, ?_, ?_⟩
  · unfold extractSnippetsFromPage
    cases timedOut <;> simp
  · intro i h1 h2
    unfold extractSnippetsFromPage at h1 ⊢
    cases timedOut with
    | false =>
      simp only [Bool.false_eq_true, if_false, List.get_eq_getElem,
        List.length_map, List.getElem_map] at h1 ⊢
      exact extractOne_type_details trySel fb _
    | true =>
      simp only [if_true, List.get_eq_getElem, List.length_map,
        List.getElem_map] at h1 ⊢
      exact timeoutSnippet_type_details _
  · intro ht c hc
    subst ht
    unfold extractSnippetsFromPage at hc
    simp only [if_pos rfl] at hc
    rcases List.mem_map.mp hc with ⟨a, _, rfl⟩
    rfl

/-- Witness for C8 at a concrete timed-out batch. -/
theorem extractSnippets_one_per_candidate_witness :
    ((true : Bool) = true) ∧
    (extractSnippetsFromPage (fun _ => none) (fun _ => "") true
        [{ type := "oauth" }]).length = 1 ∧
    (∀ c ∈ extractSnippetsFromPage (fun _ => none) (fun _ => "") true
        [{ type := "oauth" }],
       c.snippet = some ("<!-- " ++ c.type ++ " detected (timeout) -->")) := by
  refine ⟨rfl, ?_, ?_⟩
  · exact (extractSnippets_one_per_candidate (fun _ => none) (fun _ => "") true
      [{ type := "oauth" }]).1
  · exact (extractSnippets_one_per_candidate (fun _ => none) (fun _ => "") true
      [{ type := "oauth" }]).2.2 rfl

/-! ### C10: provider substrings short-circuit the scorer -/

/-- C10: whenever the element's combined attribute-and-text string contains
some provider name of the fixed list as a substring, `getElementInfo`
classifies the element as OAUTH with `brand` the first such provider in list
order, at score 25 or 15 according to the presence of an action keyword —
the password and email input checks are skipped entirely, even for an input
whose type attribute is password. -/
theorem getElementInfo_provider_shortcircuit (el : DomElem)
    (h : OAUTH_PROVIDERS.any (fun p => strIncludes (elCombined el) p) = true) :
    (getElementInfo el).type = "OAUTH" ∧
    (getElementInfo el).brand =
      OAUTH_PROVIDERS.find? (fun p => strIncludes (elCombined el) p) ∧
    (getElementInfo el).score =
      (if ACTION_KEYWORDS.any (fun k => strIncludes (elCombined el) k)
       then 25 else 15) := by
  have hfind : ∃ p, OAUTH_PROVIDERS.find? (fun p => strIncludes (elCombined el) p)
      = some p := by
    rw [← Option.isSome_iff_exists, List.find?_isSome]
    rcases List.any_eq_true.mp h with ⟨p, hp, hinc⟩
    exact ⟨p, hp, hinc⟩
  rcases hfind with ⟨p, hfind⟩
  unfold getElementInfo
  have e1 : ("OAUTH" == "UNKNOWN") = false := by decide
  simp [hfind, e1]

/-- Witness for C10: an input element with a password type attribute whose
text contains sso inside the unrelated word associated. -/
theorem getElementInfo_provider_shortcircuit_witness :
    (OAUTH_PROVIDERS.any (fun p => strIncludes
      (elCombined { name := "input", attribs := [("type", "password")],
                    text := "associated" }) p) = true) ∧
    ((getElementInfo { name := "input", attribs := [("type", "password")],
                       text := "associated" }).type = "OAUTH" ∧
     (getElementInfo { name := "input", attribs := [("type", "password")],
                       text := "associated" }).brand =
       OAUTH_PROVIDERS.find? (fun p => strIncludes
         (elCombined { name := "input", attribs := [("type", "password")],
                       text := "associated" }) p) ∧
     (getElementInfo { name := "input", attribs := [("type", "password")],
                       text := "associated" }).score =
       (if ACTION_KEYWORDS.any (fun k => strIncludes
            (elCombined { name := "input", attribs := [("type", "password")],
                          text := "associated" }) k)
        then 25 else 15)) :=
  ⟨by decide, getElementInfo_provider_shortcircuit _ (by decide)⟩

/-! ### C2: AI-path failure falls back to pattern detection -/

/-- C2: if the AI-assisted path fails — the inference call result is an
error (its 60-second timeout or a transport failure), or the delivered
response text has no parseable JSON (`parseAIOutput` throws) — then the
detection entry point returns a result whose `detectionMethod` is `pattern`
(never `ai`) and whose `success` flag is `true`. -/
theorem detectAuthentication_pattern_on_ai_failure (k : String)
    (jp : String → Option ParsedAI) (trySel : String → Option String)
    (fb : AuthComponent → String) (timedOut : Bool)
    (aiResp : Except String String) (html : List Char) (url : String)
    (e : String)
    (hfail : aiResp = .error e ∨
      ∃ t, aiResp = .ok t ∧ parseAIOutput jp t = .error e) :
    (detectAuthentication (some k) jp trySel fb timedOut aiResp html url).detectionMethod
        = "pattern" ∧
    (detectAuthentication (some k) jp trySel fb timedOut aiResp html url).success
        = true := by
  have herr : runAIDetectionE jp trySel fb timedOut aiResp url = .error e := by
    rcases hfail with h1 | ⟨t, h2, h3⟩
    · subst h1; rfl
    · subst h2
      simp only [runAIDetectionE, h3]
  unfold detectAuthentication
  rw [herr]
  exact ⟨rfl, rfl⟩

/-- Witness for C2 at a concrete timed-out inference call. -/
theorem detectAuthentication_pattern_on_ai_failure_witness :
    ((Except.error "AI API call timeout after 60000ms" :
        Except String String) = .error "AI API call timeout after 60000ms" ∨
      ∃ t, (Except.error "AI API call timeout after 60000ms" :
        Except String String) = .ok t ∧
        parseAIOutput (fun _ => none) t = .error "AI API call timeout after 60000ms") ∧
    ((detectAuthentication (some "key") (fun _ => none) (fun _ => none)
        (fun _ => "") false (.error "AI API call timeout after 60000ms")
        [] "https://example.test").detectionMethod = "pattern" ∧
     (detectAuthentication (some "key") (fun _ => none) (fun _ => none)
        (fun _ => "") false (.error "AI API call timeout after 60000ms")
        [] "https://example.test").success = true) :=
  ⟨Or.inl rfl,
   detectAuthentication_pattern_on_ai_failure "key" (fun _ => none)
     (fun _ => none) (fun _ => "") false _ [] "https://example.test" _
     (Or.inl rfl)⟩

/-! ### Shape of the pattern-detection candidates; C9 -/

theorem patternCandidates_cases (html : List Char) (c : AuthComponent)
    (hc : c ∈ patternCandidates html) :
    (c.type = "traditional" ∧ c.details.fields = some ["email", "password"]) ∨
    (c.type = "oauth" ∧ c.details.providers =
      some (oauthPatternProviders.filter (fun p => oauthCoOccur p.data html)) ∧
      oauthPatternProviders.filter (fun p => oauthCoOccur p.data html) ≠ []) ∨
    c.type = "passwordless" := by
  unfold patternCandidates at hc
  simp only [List.mem_append] at hc
  rcases hc with (h1 | h2) | h3
  · split at h1
    · simp only [List.mem_singleton] at h1
      subst h1
      exact Or.inl ⟨rfl, rfl⟩
    · simp at h1
  · rcases hfp : oauthPatternProviders.filter (fun p => oauthCoOccur p.data html)
      with _ | ⟨p0, ps⟩
    · rw [hfp] at h2; simp at h2
    · rw [hfp] at h2
      simp only [List.mem_singleton] at h2
      subst h2
      exact Or.inr (Or.inl ⟨rfl, by rw [hfp], by rw [hfp]; simp⟩)
  · split at h3
    · simp only [List.mem_singleton] at h3
      subst h3
      exact Or.inr (Or.inr rfl)
    · simp at h3

theorem extractSnippets_mem (trySel : String → Option String)
    (fb : AuthComponent → String) (timedOut : Bool) (cs : List AuthComponent)
    (c : AuthComponent) (hc : c ∈ extractSnippetsFromPage trySel fb timedOut cs) :
    ∃ c0 ∈ cs, c.type = c0.type ∧ c.details = c0.details := by
  unfold extractSnippetsFromPage at hc
  split at hc
  · rcases List.mem_map.mp hc with ⟨a, ha, rfl⟩
    exact ⟨a, ha, (timeoutSnippet_type_details a).1, (timeoutSnippet_type_details a).2⟩
  · rcases List.mem_map.mp hc with ⟨a, ha, rfl⟩
    exact ⟨a, ha, (extractOne_type_details trySel fb a).1,
      (extractOne_type_details trySel fb a).2⟩

theorem runPatternDetection_mem_shape (trySel : String → Option String)
    (fb : AuthComponent → String) (timedOut : Bool) (html : List Char)
    (url : String) (c : AuthComponent)
    (hc : c ∈ (runPatternDetection trySel fb timedOut html url).components) :
    ∃ c0 ∈ patternCandidates html, c.type = c0.type ∧ c.details = c0.details := by
  have h1 : c ∈ extractSnippetsFromPage trySel fb timedOut (patternCandidates html) :=
    dedupGo_sub [] _ c hc
  exact extractSnippets_mem trySel fb timedOut _ c h1

/-- C9: every traditional component produced by the pattern-matching
detector carries `details.fields = ["email", "password"]`, whatever the
document contains — in particular when the only trigger was a sign-in
keyword and the document has no form and no email field. -/
theorem runPatternDetection_traditional_fields (trySel : String → Option String)
    (fb : AuthComponent → String) (timedOut : Bool) (html : List Char)
    (url : String) (c : AuthComponent)
    (hc : c ∈ (runPatternDetection trySel fb timedOut html url).components)
    (ht : c.type = "traditional") :
    c.details.fields = some ["email", "password"] := by
  rcases runPatternDetection_mem_shape trySel fb timedOut html url c hc
    with ⟨c0, hc0, hty, hdet⟩
  rcases patternCandidates_cases html c0 hc0 with ⟨_, hf⟩ | ⟨hty2, _, _⟩ | hty3
  · rw [hdet, hf]
  · rw [hty2] at hty
    rw [ht] at hty
    exact absurd hty (by decide)
  · rw [hty3] at hty
    rw [ht] at hty
    exact absurd hty (by decide)

/-- Witness for C9: the document is just the word login — no form, no email
field — and the traditional component still carries both field names. -/
theorem runPatternDetection_traditional_fields_witness :
    ({ type := "traditional",
       details := { fields := some ["email", "password"],
                    playwrightSelector := some "form:has(input[type=\"password\"])" },
       snippet := some "" } : AuthComponent) ∈
      (runPatternDetection (fun _ => none) (fun _ => "") false "login".data
        "https://example.test").components ∧
    ({ type := "traditional",
       details := { fields := some ["email", "password"],
                    playwrightSelector := some "form:has(input[type=\"password\"])" },
       snippet := some "" } : AuthComponent).details.fields =
      some ["email", "password"] :=
  ⟨by decide,
   runPatternDetection_traditional_fields (fun _ => none) (fun _ => "") false
     "login".data "https://example.test" _ (by decide) rfl⟩

/-! ### C1: the found flag versus the component count -/

/-- A concrete inference response: valid JSON whose components array is
nonempty but whose found property is absent (hence read as false). -/
def aiJsonText0 : String :=
  "\x7b\"components\": [\x7b\"type\": \"oauth\", \"details\": \x7b\x7d\x7d]\x7d"

/-- The platform JSON parser on this run: `aiJsonText0` parses to an object
with a falsy `found` and a one-element components array; nothing else is
parseable. -/
def jpOracle0 : String → Option ParsedAI := fun s =>
  if s == aiJsonText0 then
    some { foundTruthy := false, componentsArr := some [{ type := "oauth" }] }
  else none

/-- C1 counterexample: on the AI path the pipeline copies the response's own
found flag, so a parseable response with a nonempty components list and
`found` absent yields a `DetectionResult` with `found = false` and one
component — `found = (components.length > 0)` fails. -/
theorem found_flag_counterexample :
    ((detectAuthentication (some "key") jpOracle0 (fun _ => none) (fun _ => "")
        false (.ok aiJsonText0) [] "https://example.test").detectionMethod,
     (detectAuthentication (some "key") jpOracle0 (fun _ => none) (fun _ => "")
        false (.ok aiJsonText0) [] "https://example.test").found,
     (detectAuthentication (some "key") jpOracle0 (fun _ => none) (fun _ => "")
        false (.ok aiJsonText0) [] "https://example.test").components.length) =
    ("ai", false, 1) := by decide

/-- C1 amended: on the pattern path `found` equals
`components.length > 0`; on the AI path `found` is copied from the `found`
field of the parsed AI response (defaulting to false), which need not agree
with the component count. -/
theorem found_flag_amended (jp : String → Option ParsedAI)
    (trySel : String → Option String) (fb : AuthComponent → String)
    (timedOut : Bool) (html : List Char) (url : String) :
    ((runPatternDetection trySel fb timedOut html url).found =
      decide (0 < (runPatternDetection trySel fb timedOut html url).components.length)) ∧
    (∀ text d, parseAIOutput jp text = .ok d →
      ∀ r, runAIDetectionE jp trySel fb timedOut (.ok text) url = .ok r →
        r.found = d.found) := by
  constructor
  · rfl
  · intro text d hparse r hrun
    unfold runAIDetectionE at hrun
    simp only [hparse] at hrun
    cases hrun
    rfl

/-- Witness for C1 amended, at the parse of `aiJsonText0`. -/
theorem found_flag_amended_witness :
    ((runPatternDetection (fun _ => none) (fun _ => "") false "login".data
        "https://example.test").found =
      decide (0 < (runPatternDetection (fun _ => none) (fun _ => "") false
        "login".data "https://example.test").components.length)) ∧
    (({ success := true, url := "https://example.test", found := false,
        components := [{ type := "oauth",
                         snippet := some "<!-- oauth detected, no selector -->" }],
        detectionMethod := "ai" } : DetectionResult).found =
      ({ found := false, components := [{ type := "oauth" }] } :
        AIDetectionResponse).found) :=
  ⟨(found_flag_amended jpOracle0 (fun _ => none) (fun _ => "") false
      "login".data "https://example.test").1,
   (found_flag_amended jpOracle0 (fun _ => none) (fun _ => "") false
      "login".data "https://example.test").2 aiJsonText0
      { found := false, components := [{ type := "oauth" }] } (by rfl)
      { success := true, url := "https://example.test", found := false,
        components := [{ type := "oauth",
                         snippet := some "<!-- oauth detected, no selector -->" }],
        detectionMethod := "ai" } (by rfl)⟩

/-! ### C7: the extracted JSON region -/

/-- Auxiliary balanced scan: inside a region at the given brace depth,
return the characters through the brace closing depth one. -/
def balAux : Nat → List Char → Option (List Char)
  | _, [] => none
  | d, c :: r =>
    if c == lbChar then (balAux (d + 1) r).map (fun l => c :: l)
    else if c == rbChar then
      if d == 1 then some [c] else (balAux (d - 1) r).map (fun l => c :: l)
    else (balAux d r).map (fun l => c :: l)

/-- Modelled from the spec: the first balanced brace region of the text
(the spec describes response parsing as extracting "the first balanced
`{...}` region"); for comparison with `extractJsonRegion`, the behaviour of
the source's `text.match(/\{[\s\S]*\}/)`. -/
def specFirstBalancedRegion (s : List Char) : Option (List Char) :=
  match s.dropWhile (fun c => c != lbChar) with
  | [] => none
  | c :: r => (balAux 1 r).map (fun l => c :: l)

/-- C7 counterexample: on a response holding two balanced objects the code
extracts the span from the first left brace through the last right brace —
the whole of `{"a": 1} x {"b": 2}` — while the first balanced region is just
`{"a": 1}`; the two extractions differ. -/
theorem parseAIOutput_region_counterexample :
    extractJsonRegion "\x7b\"a\": 1\x7d x \x7b\"b\": 2\x7d".data =
      some "\x7b\"a\": 1\x7d x \x7b\"b\": 2\x7d".data ∧
    specFirstBalancedRegion "\x7b\"a\": 1\x7d x \x7b\"b\": 2\x7d".data =
      some "\x7b\"a\": 1\x7d".data ∧
    extractJsonRegion "\x7b\"a\": 1\x7d x \x7b\"b\": 2\x7d".data ≠
      specFirstBalancedRegion "\x7b\"a\": 1\x7d x \x7b\"b\": 2\x7d".data := by
  refine ⟨by decide, by decide, by decide⟩

theorem dropWhile_head_not (p : Char → Bool) :
    ∀ (l : List Char) (c : Char) (r : List Char),
      l.dropWhile p = c :: r → p c = false := by
  intro l
  induction l with
  | nil => intro c r h; simp [List.dropWhile] at h
  | cons a t ih =>
    intro c r h
    rw [List.dropWhile_cons] at h
    split at h
    · exact ih c r h
    · rename_i hp
      cases h
      exact Bool.not_eq_true _ |>.mp hp

/-- C7 amended: response parsing extracts the span of the text from its
first left brace through its last right brace (whenever some right brace
follows the first left brace), strips trailing commas and comment-style text
from that span, and parses it with the platform parser; a missing region or
a parse failure raises an error — the AI path is never partially trusted. -/
theorem parseAIOutput_span_amended (jp : String → Option ParsedAI)
    (text : String) :
    (parseAIOutput jp text =
      (match extractJsonRegion text.data with
       | none => .error "No JSON in AI response"
       | some region =>
         match jp (String.mk (cleanJson region)) with
         | none => .error "JSON parse failed"
         | some d => .ok { found := d.foundTruthy,
                           components := d.componentsArr.getD [] })) ∧
    (∀ r, extractJsonRegion text.data = some r →
      ∃ a b, text.data = a ++ r ++ b ∧
        a.all (fun c => c != lbChar) = true ∧
        b.all (fun c => c != rbChar) = true ∧
        r.head? = some lbChar ∧ r.getLast? = some rbChar) := by
  constructor
  · rfl
  · intro r hr
    unfold extractJsonRegion at hr
    by_cases hemp :
        (((text.data.dropWhile (fun c => c != lbChar)).reverse.dropWhile
          (fun c => c != rbChar)).reverse).isEmpty
    · simp only [hemp, if_true] at hr
      exact absurd hr (by simp)
    · simp only [hemp, if_false, Option.some.injEq, Bool.false_eq_true] at hr
      subst hr
      refine ⟨text.data.takeWhile (fun c => c != lbChar),
        ((text.data.dropWhile (fun c => c != lbChar)).reverse.takeWhile
          (fun c => c != rbChar)).reverse, ?_, ?_, ?_, ?_, ?_⟩
      · conv_lhs => rw [← List.takeWhile_append_dropWhile
          (p := fun c => c != lbChar) (l := text.data)]
        rw [List.append_assoc]
        congr 1
        conv_lhs => rw [← List.reverse_reverse
          (text.data.dropWhile (fun c => c != lbChar))]
        conv_lhs => rw [← List.takeWhile_append_dropWhile
          (p := fun c => c != rbChar)
          (l := (text.data.dropWhile (fun c => c != lbChar)).reverse)]
        rw [List.reverse_append]
      · rw [List.all_eq_true]
        intro c hc
        exact List.mem_takeWhile_imp (p := fun c => c != lbChar) hc
      · rw [List.all_eq_true]
        intro c hc
        rw [List.mem_reverse] at hc
        exact List.mem_takeWhile_imp (p := fun c => c != rbChar) hc
      · rcases hu : ((text.data.dropWhile (fun c => c != lbChar)).reverse.dropWhile
            (fun c => c != rbChar)).reverse with _ | ⟨c, u2⟩
        · rw [hu] at hemp; simp at hemp
        · have hh : (text.data.dropWhile (fun c => c != lbChar)).head? = some c := by
            have e1 : text.data.dropWhile (fun c => c != lbChar) =
                (((text.data.dropWhile (fun c => c != lbChar)).reverse.dropWhile
                  (fun c => c != rbChar)).reverse) ++
                (((text.data.dropWhile (fun c => c != lbChar)).reverse.takeWhile
                  (fun c => c != rbChar)).reverse) := by
              conv_lhs => rw [← List.reverse_reverse
                (text.data.dropWhile (fun c => c != lbChar))]
              conv_lhs => rw [← List.takeWhile_append_dropWhile
                (p := fun c => c != rbChar)
                (l := (text.data.dropWhile (fun c => c != lbChar)).reverse)]
              rw [List.reverse_append]
            rw [e1, hu]
            rfl
          rcases hd : text.data.dropWhile (fun c => c != lbChar) with _ | ⟨d, t2⟩
          · rw [hd] at hh; simp at hh
          · have := dropWhile_head_not (fun c => c != lbChar) text.data d t2 hd
            rw [hd] at hh
            simp only [List.head?_cons, Option.some.injEq] at hh
            rw [List.head?_cons]
            simp only [bne_eq_false_iff_eq] at this
            rw [← hh, this]
      · rcases hdw : (text.data.dropWhile (fun c => c != lbChar)).reverse.dropWhile
            (fun c => c != rbChar) with _ | ⟨d, dr⟩
        · rw [hdw] at hemp; simp at hemp
        · have := dropWhile_head_not (fun c => c != rbChar)
            (text.data.dropWhile (fun c => c != lbChar)).reverse d dr hdw
          rw [List.getLast?_reverse, List.head?_cons]
          simp only [bne_eq_false_iff_eq] at this
          rw [this]

/-- Witness for C7 amended at a concrete wrapped response with an
unparseable region. -/
theorem parseAIOutput_span_amended_witness :
    parseAIOutput (fun _ => none) "x \x7b\"a\": 1\x7d y" =
      .error "JSON parse failed" ∧
    (∃ a b, "x \x7b\"a\": 1\x7d y".data = a ++ "\x7b\"a\": 1\x7d".data ++ b ∧
      a.all (fun c => c != lbChar) = true ∧
      b.all (fun c => c != rbChar) = true ∧
      "\x7b\"a\": 1\x7d".data.head? = some lbChar ∧
      "\x7b\"a\": 1\x7d".data.getLast? = some rbChar) :=
  ⟨((parseAIOutput_span_amended (fun _ => none) "x \x7b\"a\": 1\x7d y").1).trans
     (by rfl),
   (parseAIOutput_span_amended (fun _ => none) "x \x7b\"a\": 1\x7d y").2
     "\x7b\"a\": 1\x7d".data (by decide)⟩

/-! ### C6: the OAuth co-occurrence rule -/

theorem dedupGo_sublist : ∀ (seen : List String) (cs : List AuthComponent),
    (dedupGo seen cs).Sublist cs := by
  intro seen cs
  induction cs generalizing seen with
  | nil => simp [dedupGo]
  | cons a cs ih =>
    simp only [dedupGo]
    split
    · exact (ih seen).cons a
    · exact (ih _).cons₂ a

theorem dedupKey_data_decomp (c : AuthComponent) :
    ∃ r, (dedupKey c).data = c.type.data ++ ':' :: r := by
  unfold dedupKey
  refine ⟨(dedupSnipPart c).data, ?_⟩
  rw [String.data_append, String.data_append, List.append_assoc]
  rfl

theorem type_keys_distinct (c d : AuthComponent) (hc : c.type = "oauth")
    (hd : d.type = "traditional" ∨ d.type = "passwordless") :
    dedupKey d ≠ dedupKey c := by
  intro h
  rcases dedupKey_data_decomp c with ⟨r1, e1⟩
  rcases dedupKey_data_decomp d with ⟨r2, e2⟩
  have h2 := congrArg String.data h
  rw [e1, e2, hc] at h2
  rcases hd with hd | hd <;> rw [hd] at h2 <;>
    simpa using congrArg (fun l => l.head?) h2

theorem dedupGo_keeps : ∀ (cs : List AuthComponent) (seen : List String)
    (c : AuthComponent), c ∈ cs → seen.contains (dedupKey c) = false →
    (∀ d ∈ cs, dedupKey d = dedupKey c → d = c) → c ∈ dedupGo seen cs := by
  intro cs
  induction cs with
  | nil => intro seen c hc; simp at hc
  | cons a cs ih =>
    intro seen c hc hseen huniq
    simp only [dedupGo]
    split
    · rename_i hcont
      rcases List.mem_cons.mp hc with rfl | hmem
      · rw [hseen] at hcont; simp at hcont
      · exact ih seen c hmem hseen
          (fun d hd he => huniq d (List.mem_cons_of_mem a hd) he)
    · by_cases hac : a = c
      · subst hac
        exact List.mem_cons_self _ _
      · have hmem : c ∈ cs := by
          rcases List.mem_cons.mp hc with h1 | h2
          · exact absurd h1.symm hac
          · exact h2
        refine List.mem_cons_of_mem a (ih _ c hmem ?_ ?_)
        · have hak : dedupKey a ≠ dedupKey c :=
            fun he => hac (huniq a (List.mem_cons_self a cs) he)
          simp only [List.contains_cons]
          rw [hseen]
          simp only [Bool.or_false]
          rw [beq_eq_false_iff_ne]
          exact fun he => hak he.symm
        · exact fun d hd he => huniq d (List.mem_cons_of_mem a hd) he

theorem extractSnippets_is_map (trySel : String → Option String)
    (fb : AuthComponent → String) (timedOut : Bool) (cs : List AuthComponent) :
    ∃ g : AuthComponent → AuthComponent,
      extractSnippetsFromPage trySel fb timedOut cs = cs.map g ∧
      ∀ x, (g x).type = x.type ∧ (g x).details = x.details := by
  unfold extractSnippetsFromPage
  split
  · exact ⟨timeoutSnippet, rfl, fun x => timeoutSnippet_type_details x⟩
  · exact ⟨extractOne trySel fb, rfl, fun x => extractOne_type_details trySel fb x⟩

theorem patternCandidates_oauth_mem (html : List Char) (p0 : String)
    (ps : List String)
    (hfp : oauthPatternProviders.filter (fun p => oauthCoOccur p.data html)
      = p0 :: ps) :
    ({ type := "oauth",
       details := { providers := some (p0 :: ps),
                    playwrightSelector :=
                      some ("button:has-text(\"" ++ p0 ++ "\")") } } :
      AuthComponent) ∈ patternCandidates html := by
  unfold patternCandidates
  rw [hfp]
  simp [List.mem_append]

theorem patternCandidates_oauth_unique (html : List Char) (p0 : String)
    (ps : List String)
    (hfp : oauthPatternProviders.filter (fun p => oauthCoOccur p.data html)
      = p0 :: ps) :
    ∀ c0 ∈ patternCandidates html, c0.type = "oauth" →
      c0 = { type := "oauth",
             details := { providers := some (p0 :: ps),
                          playwrightSelector :=
                            some ("button:has-text(\"" ++ p0 ++ "\")") } } := by
  intro c0 hc0 hty
  unfold patternCandidates at hc0
  rw [hfp] at hc0
  simp only [List.mem_append] at hc0
  rcases hc0 with (h1 | h2) | h3
  · split at h1
    · simp only [List.mem_singleton] at h1
      subst h1
      exact absurd hty (by decide)
    · simp at h1
  · simp only [List.mem_singleton] at h2
    exact h2
  · split at h3
    · simp only [List.mem_singleton] at h3
      subst h3
      exact absurd (show ("passwordless" : String) = "oauth" from hty) (by decide)
    · simp at h3

theorem len_filter_append3 (A B C : List AuthComponent)
    (p : AuthComponent → Bool)
    (hA : ∀ x ∈ A, p x = false) (hC : ∀ x ∈ C, p x = false)
    (hB : B.length ≤ 1) : ((A ++ B ++ C).filter p).length ≤ 1 := by
  rw [List.filter_append, List.filter_append, List.length_append,
    List.length_append]
  have eA : (A.filter p).length = 0 := by
    rw [List.length_eq_zero, List.filter_eq_nil]
    exact fun a ha => by rw [hA a ha]; simp
  have eC : (C.filter p).length = 0 := by
    rw [List.length_eq_zero, List.filter_eq_nil]
    exact fun a ha => by rw [hC a ha]; simp
  have eB : (B.filter p).length ≤ 1 :=
    le_trans (List.length_filter_le _ _) hB
  omega

theorem patternCandidates_map_oauth_count (html : List Char)
    (g : AuthComponent → AuthComponent)
    (hg : ∀ x, (g x).type = x.type ∧ (g x).details = x.details) :
    (((patternCandidates html).map g).filter
      (fun c => c.type == "oauth")).length ≤ 1 := by
  unfold patternCandidates
  rw [List.map_append, List.map_append]
  apply len_filter_append3
  · intro x hx
    rcases List.mem_map.mp hx with ⟨y, hy, rfl⟩
    rw [beq_eq_false_iff_ne, (hg y).1]
    split at hy
    · simp only [List.mem_singleton] at hy
      subst hy
      decide
    · simp at hy
  · intro x hx
    rcases List.mem_map.mp hx with ⟨y, hy, rfl⟩
    rw [beq_eq_false_iff_ne, (hg y).1]
    split at hy
    · simp only [List.mem_singleton] at hy
      subst hy
      intro hx2
      exact absurd (show ("passwordless" : String) = "oauth" from hx2) (by decide)
    · simp at hy
  · rw [List.length_map]
    split
    · simp
    · simp

/-- C6: the pattern-matching detector emits an oauth component exactly when
some provider of its fixed list co-occurs with a sign/log/continue verb in
either order inside one line-terminator-free stretch of the markup (the
embedded reading of its per-provider regex); all matching providers are
merged into the providers list, and at most one oauth component is
emitted. -/
theorem runPatternDetection_oauth_rule (trySel : String → Option String)
    (fb : AuthComponent → String) (timedOut : Bool) (html : List Char)
    (url : String) :
    ((∃ c ∈ (runPatternDetection trySel fb timedOut html url).components,
        c.type = "oauth") ↔
      oauthPatternProviders.filter (fun p => oauthCoOccur p.data html) ≠ []) ∧
    (∀ c ∈ (runPatternDetection trySel fb timedOut html url).components,
      c.type = "oauth" → c.details.providers =
        some (oauthPatternProviders.filter (fun p => oauthCoOccur p.data html))) ∧
    ((runPatternDetection trySel fb timedOut html url).components.filter
        (fun c => c.type == "oauth")).length ≤ 1 := by
  refine ⟨⟨?_, ?_⟩, ?_, ?_⟩
  · rintro ⟨c, hc, hty⟩
    rcases runPatternDetection_mem_shape trySel fb timedOut html url c hc
      with ⟨c0, hc0, htyeq, hdet⟩
    rcases patternCandidates_cases html c0 hc0 with ⟨ht, _⟩ | ⟨_, _, hne⟩ | ht
    · rw [ht] at htyeq
      rw [hty] at htyeq
      exact absurd htyeq (by decide)
    · exact hne
    · rw [ht] at htyeq
      rw [hty] at htyeq
      exact absurd htyeq (by decide)
  · intro hne
    rcases hfp : oauthPatternProviders.filter (fun p => oauthCoOccur p.data html)
      with _ | ⟨p0, ps⟩
    · exact absurd hfp hne
    · rcases extractSnippets_is_map trySel fb timedOut (patternCandidates html)
        with ⟨g, hmap, hpres⟩
      have hocmem := patternCandidates_oauth_mem html p0 ps hfp
      have hgmem : g { type := "oauth",
                       details := { providers := some (p0 :: ps),
                                    playwrightSelector :=
                                      some ("button:has-text(\"" ++ p0 ++ "\")") } } ∈
          extractSnippetsFromPage trySel fb timedOut (patternCandidates html) := by
        rw [hmap]
        exact List.mem_map_of_mem g hocmem
      have hkeep : g { type := "oauth",
                       details := { providers := some (p0 :: ps),
                                    playwrightSelector :=
                                      some ("button:has-text(\"" ++ p0 ++ "\")") } } ∈
          (runPatternDetection trySel fb timedOut html url).components := by
        show _ ∈ dedupGo [] _
        apply dedupGo_keeps _ _ _ hgmem (by simp)
        intro d hd he
        rw [hmap] at hd
        rcases List.mem_map.mp hd with ⟨y, hy, rfl⟩
        rcases patternCandidates_cases html y hy with ⟨ht, _⟩ | ⟨ht, _, _⟩ | ht
        · exact absurd he (type_keys_distinct _ _ (by rw [(hpres _).1])
            (Or.inl (by rw [(hpres y).1, ht])))
        · have hyeq := patternCandidates_oauth_unique html p0 ps hfp y hy ht
          rw [hyeq]
        · exact absurd he (type_keys_distinct _ _ (by rw [(hpres _).1])
            (Or.inr (by rw [(hpres y).1, ht])))
      exact ⟨_, hkeep, by rw [(hpres _).1]⟩
  · intro c hc hty
    rcases runPatternDetection_mem_shape trySel fb timedOut html url c hc
      with ⟨c0, hc0, htyeq, hdet⟩
    rcases patternCandidates_cases html c0 hc0 with ⟨ht, _⟩ | ⟨_, hp, _⟩ | ht
    · rw [ht] at htyeq
      rw [hty] at htyeq
      exact absurd htyeq (by decide)
    · rw [hdet, hp]
    · rw [ht] at htyeq
      rw [hty] at htyeq
      exact absurd htyeq (by decide)
  · rcases extractSnippets_is_map trySel fb timedOut (patternCandidates html)
      with ⟨g, hmap, hpres⟩
    have hsub : ((runPatternDetection trySel fb timedOut html url).components).Sublist
        (extractSnippetsFromPage trySel fb timedOut (patternCandidates html)) :=
      dedupGo_sublist [] _
    have hlen := (hsub.filter (fun c => c.type == "oauth")).length_le
    rw [hmap] at hlen
    exact le_trans hlen (patternCandidates_map_oauth_count html g hpres)

/-- Witness for C6: the document `continue with google` makes google (and
only google) co-occur with a verb, and an oauth component is emitted. -/
theorem runPatternDetection_oauth_rule_witness :
    oauthPatternProviders.filter
      (fun p => oauthCoOccur p.data "continue with google".data) = ["google"] ∧
    (∃ c ∈ (runPatternDetection (fun _ => none) (fun _ => "") false
        "continue with google".data "https://example.test").components,
      c.type = "oauth") :=
  ⟨by decide,
   (runPatternDetection_oauth_rule (fun _ => none) (fun _ => "") false
     "continue with google".data "https://example.test").1.mpr (by decide)⟩

/-! ### C5: the lowest common ancestor -/

theorem mem_ancChain : ∀ (p x : List Nat),
    x ∈ ancChain p ↔ ∃ r, r ≠ [] ∧ x ++ r = p := by
  intro p
  induction p with
  | nil =>
    intro x
    constructor
    · intro h; simp [ancChain] at h
    · rintro ⟨r, hr, habs⟩
      exact absurd (List.append_eq_nil.mp habs).2 hr
  | cons a p2 ih =>
    intro x
    simp only [ancChain, List.mem_cons, List.mem_map]
    constructor
    · rintro (rfl | ⟨y, hy, rfl⟩)
      · exact ⟨a :: p2, by simp, rfl⟩
      · rcases (ih y).mp hy with ⟨r, hr, he⟩
        exact ⟨r, hr, by rw [List.cons_append, he]⟩
    · rintro ⟨r, hr, he⟩
      rcases x with _ | ⟨x0, x2⟩
      · exact Or.inl rfl
      · rw [List.cons_append] at he
        injection he with h1 h2
        subst h1
        exact Or.inr ⟨x2, (ih x2).mpr ⟨r, hr, h2⟩, rfl⟩

theorem ancChain_lengths_lt : ∀ p : List Nat,
    (ancChain p).Pairwise (fun a b => a.length < b.length) := by
  intro p
  induction p with
  | nil => simp [ancChain]
  | cons a p2 ih =>
    simp only [ancChain]
    refine List.Pairwise.cons ?_ ?_
    · intro y hy
      rcases List.mem_map.mp hy with ⟨z, _, rfl⟩
      simp
    · rw [List.pairwise_map]
      exact ih.imp (fun h => by simpa using Nat.succ_lt_succ h)

theorem foldl_filter_parents (rest : List (List Nat)) :
    ∀ acc : List (List Nat),
      rest.foldl (fun acc e => acc.filter (fun q => decide (q ∈ parentsOf e))) acc =
      acc.filter (fun q => decide (∀ e ∈ rest, q ∈ parentsOf e)) := by
  induction rest with
  | nil =>
    intro acc
    simp
  | cons e1 rest ih =>
    intro acc
    simp only [List.foldl_cons]
    rw [ih, List.filter_filter]
    congr 1
    funext q
    simp [List.forall_mem_cons, Bool.and_comm]

theorem head_filter_max (P : List Nat → Bool) :
    ∀ l : List (List Nat), l.Pairwise (fun a b => b.length < a.length) →
    ∀ m, (l.filter P).head? = some m →
      ∀ y ∈ l, P y = true → y.length ≤ m.length := by
  intro l
  induction l with
  | nil => intro _ m h; simp at h
  | cons a l2 ih =>
    intro hp m hm y hy hPy
    rw [List.filter_cons] at hm
    by_cases hPa : P a = true
    · rw [if_pos hPa] at hm
      simp only [List.head?_cons, Option.some.injEq] at hm
      subst hm
      rcases List.mem_cons.mp hy with rfl | hy2
      · exact le_refl _
      · exact le_of_lt ((List.pairwise_cons.mp hp).1 y hy2)
    · rw [if_neg hPa] at hm
      rcases List.mem_cons.mp hy with rfl | hy2
      · exact absurd hPy hPa
      · exact ih (List.pairwise_cons.mp hp).2 m hm y hy2 hPy

/-- C5: for two or more elements of one parsed tree (given by nonempty root
paths), `findLCA` returns the deepest node that is a proper ancestor of every
element of the set: a common proper ancestor whose depth bounds that of every
common proper ancestor. -/
theorem findLCA_deepest_common_ancestor (es : List (List Nat))
    (h2 : 2 ≤ es.length) (hne : ∀ e ∈ es, e ≠ []) :
    ∃ a, findLCA es = some a ∧
      (∀ e ∈ es, ∃ r, r ≠ [] ∧ a ++ r = e) ∧
      (∀ b, (∀ e ∈ es, ∃ r, r ≠ [] ∧ b ++ r = e) → b.length ≤ a.length) := by
  rcases es with _ | ⟨e0, es1⟩
  · simp at h2
  rcases es1 with _ | ⟨e1, rest⟩
  · simp at h2
  have heq : findLCA (e0 :: e1 :: rest) =
      ((parentsOf e0).filter
        (fun q => decide (∀ e ∈ e1 :: rest, q ∈ parentsOf e))).head? := by
    show ((e1 :: rest).foldl
      (fun acc e => acc.filter (fun q => decide (q ∈ parentsOf e)))
      (parentsOf e0)).head? = _
    rw [foldl_filter_parents]
  have hmemroot : ([] : List Nat) ∈ (parentsOf e0).filter
      (fun q => decide (∀ e ∈ e1 :: rest, q ∈ parentsOf e)) := by
    rw [List.mem_filter]
    constructor
    · rw [parentsOf, List.mem_reverse, mem_ancChain]
      exact ⟨e0, hne e0 (by simp), by simp⟩
    · simp only [decide_eq_true_eq]
      intro e he
      rw [parentsOf, List.mem_reverse, mem_ancChain]
      exact ⟨e, hne e (List.mem_cons_of_mem e0 he), by simp⟩
  rcases hcase : (parentsOf e0).filter
      (fun q => decide (∀ e ∈ e1 :: rest, q ∈ parentsOf e)) with _ | ⟨m, t⟩
  · rw [hcase] at hmemroot
    simp at hmemroot
  have hsorted : (parentsOf e0).Pairwise (fun a b => b.length < a.length) := by
    rw [parentsOf, List.pairwise_reverse]
    exact ancChain_lengths_lt e0
  have hm : m ∈ (parentsOf e0).filter
      (fun q => decide (∀ e ∈ e1 :: rest, q ∈ parentsOf e)) := by
    rw [hcase]
    exact List.mem_cons_self _ _
  rw [List.mem_filter] at hm
  refine ⟨m, by rw [heq, hcase]; rfl, ?_, ?_⟩
  · intro e he
    rcases List.mem_cons.mp he with rfl | he2
    · have h3 := hm.1
      rw [parentsOf, List.mem_reverse, mem_ancChain] at h3
      exact h3
    · have h3 := hm.2
      simp only [decide_eq_true_eq] at h3
      have h4 := h3 e he2
      rw [parentsOf, List.mem_reverse, mem_ancChain] at h4
      exact h4
  · intro b hb
    refine head_filter_max _ (parentsOf e0) hsorted m (by rw [hcase]; rfl) b ?_ ?_
    · rw [parentsOf, List.mem_reverse, mem_ancChain]
      exact hb e0 (by simp)
    · simp only [decide_eq_true_eq]
      intro e he
      rw [parentsOf, List.mem_reverse, mem_ancChain]
      exact hb e (List.mem_cons_of_mem e0 he)

/-- Witness for C5: two siblings under one parent. -/
theorem findLCA_deepest_common_ancestor_witness :
    (2 ≤ ([[0, 1], [0, 2]] : List (List Nat)).length) ∧
    (∃ a, findLCA [[0, 1], [0, 2]] = some a ∧
      (∀ e ∈ ([[0, 1], [0, 2]] : List (List Nat)), ∃ r, r ≠ [] ∧ a ++ r = e) ∧
      (∀ b, (∀ e ∈ ([[0, 1], [0, 2]] : List (List Nat)),
          ∃ r, r ≠ [] ∧ b ++ r = e) → b.length ≤ a.length)) :=
  ⟨by decide,
   findLCA_deepest_common_ancestor [[0, 1], [0, 2]] (by decide) (by decide)⟩

/-! ### C3: a password form in the document triggers a traditional component

The chain of lemmas shows that the serialization of any well-formed document
containing a `form` that encloses a password input admits the decomposition
matched by the embedded traditional-auth regex. -/

/-- The 15-character token `type="password"` of the regex (double-quoted
variant, the one produced by rendering). -/
def pwdTokenLit : List Char := "type=\"password\"".data

/-- A list free of the character `>`. -/
def GtFree (l : List Char) : Prop := ∀ c ∈ l, c ≠ '>'

theorem listStartsWithCI_append (lit rest : List Char)
    (h : ∀ c ∈ lit, c.toLower = c) :
    listStartsWithCI lit (lit ++ rest) = true := by
  induction lit with
  | nil => rfl
  | cons c l ih =>
    simp only [List.cons_append, listStartsWithCI]
    rw [h c (by simp), beq_self_eq_true, Bool.true_and]
    exact ih (fun d hd => h d (List.mem_cons_of_mem c hd))

theorem skipUntilGt_suffix (v r : List Char) :
    ∃ r2, skipUntilGt (v ++ '>' :: r) = some r2 ∧ r.IsSuffix r2 := by
  induction v with
  | nil => exact ⟨r, by simp [skipUntilGt], List.suffix_refl r⟩
  | cons c v ih =>
    by_cases hc : c = '>'
    · subst hc
      refine ⟨v ++ '>' :: r, by simp [skipUntilGt], ?_⟩
      exact (List.suffix_cons '>' r).trans (List.suffix_append v ('>' :: r))
    · rcases ih with ⟨r2, hr2, hsuf⟩
      refine ⟨r2, ?_, hsuf⟩
      simp only [List.cons_append, skipUntilGt]
      rw [if_neg]
      · exact hr2
      · rw [beq_iff_eq]
        exact hc

theorem drop_left_of_len (l1 l2 : List Char) (n : Nat) (h : l1.length = n) :
    (l1 ++ l2).drop n = l2 := by
  subst h
  exact List.drop_left l1 l2

theorem pwdTokenAt_self (rest : List Char) :
    pwdTokenAt (pwdTokenLit ++ rest) = true := by
  show pwdTokenAt ('t' :: 'y' :: 'p' :: 'e' :: '=' :: '"' :: 'p' :: 'a' :: 's'
    :: 's' :: 'w' :: 'o' :: 'r' :: 'd' :: '"' :: rest) = true
  simp [pwdTokenAt, typeEqLit, passwordLit, listStartsWithCI, isQuoteChar]

theorem drop_suffix_append (y u : List Char) (n : Nat) :
    (u.drop n).IsSuffix ((y ++ u).drop n) := by
  induction y generalizing n with
  | nil => simp
  | cons a y ih =>
    cases n with
    | zero =>
      simp only [List.drop_zero]
      exact List.suffix_append (a :: y) u
    | succ m =>
      simp only [List.cons_append, List.drop_succ_cons]
      have h1 : u.drop (m + 1) <:+ u.drop m := by
        have h2 := List.drop_suffix 1 (u.drop m)
        rwa [List.drop_drop] at h2
      exact h1.trans (ih m)

theorem gapFindPwd_complete (x : List Char) :
    ∀ u : List Char, GtFree x → pwdTokenAt u = true →
    ∃ r2, gapFindPwd (x ++ u) = some r2 ∧ (u.drop 15).IsSuffix r2 := by
  induction x with
  | nil =>
    intro u _ hu
    rcases u with _ | ⟨c, r⟩
    · exact absurd hu (by decide)
    · refine ⟨(c :: r).drop 15, ?_, List.suffix_refl _⟩
      simp only [List.nil_append, gapFindPwd, if_pos hu]
  | cons a x ih =>
    intro u hx hu
    by_cases hfire : pwdTokenAt (a :: (x ++ u)) = true
    · refine ⟨((a :: (x ++ u)).drop 15), ?_, ?_⟩
      · simp only [List.cons_append, gapFindPwd, List.append_eq] at hfire ⊢
        rw [if_pos hfire]
      · have h1 := drop_suffix_append (a :: x) u 15
        simpa using h1
    · have hrec := ih u (fun d hd => hx d (List.mem_cons_of_mem a hd)) hu
      rcases hrec with ⟨r2, hr2, hsuf⟩
      refine ⟨r2, ?_, hsuf⟩
      simp only [List.cons_append, gapFindPwd, List.append_eq] at hfire ⊢
      rw [if_neg hfire, if_neg]
      · exact hr2
      · rw [beq_iff_eq]
        exact hx a (List.mem_cons_self a x)

theorem listHasCI_intro (lit a b : List Char) (h : ∀ c ∈ lit, c.toLower = c) :
    listHasCI lit (a ++ (lit ++ b)) = true := by
  unfold listHasCI
  rw [List.any_eq_true]
  refine ⟨lit ++ b, ?_, listStartsWithCI_append lit b h⟩
  rw [List.mem_tails _ _]
  exact ⟨a, rfl⟩

theorem listHasCI_mono (lit s s2 : List Char) (hsuf : s.IsSuffix s2)
    (h : listHasCI lit s = true) : listHasCI lit s2 = true := by
  unfold listHasCI at h ⊢
  rw [List.any_eq_true] at h ⊢
  rcases h with ⟨t, ht, hP⟩
  rw [List.mem_tails _ _] at ht
  exact ⟨t, (List.mem_tails _ _).mpr (ht.trans hsuf), hP⟩

theorem tradShape_match (s u v w x y z : List Char) (hx : GtFree x)
    (hs : s = u ++ (formOpenLit ++ (v ++ '>' ::
      (w ++ (inputOpenLit ++ (x ++ (pwdTokenLit ++ (y ++ (formCloseLit ++ z)))))))))
    : tradFormRegexTest s = true := by
  subst hs
  unfold tradFormRegexTest
  rw [List.any_eq_true]
  refine ⟨formOpenLit ++ (v ++ '>' ::
      (w ++ (inputOpenLit ++ (x ++ (pwdTokenLit ++ (y ++ (formCloseLit ++ z))))))),
    (List.mem_tails _ _).mpr ⟨u, rfl⟩, ?_⟩
  rw [listStartsWithCI_append formOpenLit _ (by decide), Bool.true_and]
  rw [drop_left_of_len formOpenLit _ 5 (by decide)]
  rcases skipUntilGt_suffix v
    (w ++ (inputOpenLit ++ (x ++ (pwdTokenLit ++ (y ++ (formCloseLit ++ z))))))
    with ⟨r2, hskip, hsuf⟩
  rw [hskip]
  show r2.tails.any _ = true
  rw [List.any_eq_true]
  have hmem : (inputOpenLit ++ (x ++ (pwdTokenLit ++ (y ++ (formCloseLit ++ z))))).IsSuffix
      (w ++ (inputOpenLit ++ (x ++ (pwdTokenLit ++ (y ++ (formCloseLit ++ z)))))) :=
    ⟨w, rfl⟩
  refine ⟨inputOpenLit ++ (x ++ (pwdTokenLit ++ (y ++ (formCloseLit ++ z)))),
    (List.mem_tails _ _).mpr (hmem.trans hsuf), ?_⟩
  rw [listStartsWithCI_append inputOpenLit _ (by decide), Bool.true_and]
  rw [drop_left_of_len inputOpenLit _ 6 (by decide)]
  rcases gapFindPwd_complete x (pwdTokenLit ++ (y ++ (formCloseLit ++ z))) hx
    (pwdTokenAt_self _) with ⟨r3, hr3, hsuf3⟩
  rw [hr3]
  show listHasCI formCloseLit r3 = true
  rw [drop_left_of_len pwdTokenLit _ 15 (by decide)] at hsuf3
  exact listHasCI_mono formCloseLit _ r3 hsuf3 (listHasCI_intro formCloseLit y z (by decide))

theorem gtFreeStr_ne (s : String) (h : gtFreeStr s = true) :
    ∀ c ∈ s.data, c ≠ '>' := by
  intro c hc
  have h2 := List.all_eq_true.mp h c hc
  simpa using h2

theorem renderAttrs_append (l1 l2 : List (String × String)) :
    renderAttrs (l1 ++ l2) = renderAttrs l1 ++ renderAttrs l2 := by
  induction l1 with
  | nil => simp [renderAttrs]
  | cons a rest ih =>
    rcases a with ⟨n, v⟩
    show (' ' :: n.data ++ '=' :: '"' :: v.data ++ '"' :: renderAttrs (rest ++ l2))
      = (' ' :: n.data ++ '=' :: '"' :: v.data ++ '"' :: renderAttrs rest)
        ++ renderAttrs l2
    rw [ih]
    simp [List.append_assoc]

theorem cleanPwdAttrs_split (attrs : List (String × String))
    (h : cleanPwdAttrs attrs = true) :
    ∃ pre post, attrs = pre ++ ("type", "password") :: post ∧
      GtFree (renderAttrs pre) := by
  induction attrs with
  | nil => simp [cleanPwdAttrs] at h
  | cons a rest ih =>
    rcases a with ⟨n, v⟩
    unfold cleanPwdAttrs at h
    rw [Bool.or_eq_true] at h
    rcases h with h | h
    · rw [Bool.and_eq_true, beq_iff_eq, beq_iff_eq] at h
      rcases h with ⟨rfl, rfl⟩
      exact ⟨[], rest, rfl, fun c hc => by simp [renderAttrs] at hc⟩
    · rw [Bool.and_eq_true, Bool.and_eq_true] at h
      rcases h with ⟨⟨hn, hv⟩, hrest⟩
      rcases ih hrest with ⟨pre, post, rfl, hpre⟩
      refine ⟨(n, v) :: pre, post, rfl, ?_⟩
      intro c hc
      simp only [renderAttrs, List.cons_append, List.mem_cons, List.mem_append,
        List.mem_cons] at hc
      rcases hc with rfl | (hc | rfl | rfl | hc) | rfl | hc
      · decide
      · exact gtFreeStr_ne n hn c hc
      · decide
      · decide
      · exact gtFreeStr_ne v hv c hc
      · decide
      · exact hpre c hc

/-- The serialized text contains `<input` followed, across a `>`-free gap,
by the `type="password"` token. -/
def InputShape (s : List Char) : Prop :=
  ∃ c x d, GtFree x ∧ s = c ++ (inputOpenLit ++ (x ++ (pwdTokenLit ++ d)))

/-- The full decomposition matched by the traditional-auth regex (only the
gap inside the input tag must be `>`-free; a `>` anywhere else is
harmless). -/
def FormShape (s : List Char) : Prop :=
  ∃ u v w x y z, GtFree x ∧
    s = u ++ (formOpenLit ++ (v ++ '>' ::
      (w ++ (inputOpenLit ++ (x ++ (pwdTokenLit ++ (y ++ (formCloseLit ++ z))))))))

theorem InputShape_extend (p q s : List Char) (h : InputShape s) :
    InputShape (p ++ (s ++ q)) := by
  rcases h with ⟨c, x, d, hx, rfl⟩
  exact ⟨p ++ c, x, d ++ q, hx, by simp [List.append_assoc]⟩

theorem FormShape_extend (p q s : List Char) (h : FormShape s) :
    FormShape (p ++ (s ++ q)) := by
  rcases h with ⟨u, v, w, x, y, z, hx, rfl⟩
  exact ⟨p ++ u, v, w, x, y, z ++ q, hx, by simp [List.append_assoc]⟩

mutual
theorem containsCleanPwdInput_shape (n : HNode)
    (hc : containsCleanPwdInput n = true) : InputShape (renderNode n) := by
  cases n with
  | text s => simp [containsCleanPwdInput] at hc
  | elem tag attrs ch =>
    unfold containsCleanPwdInput at hc
    rw [Bool.or_eq_true] at hc
    rcases hc with hc | hc
    · rw [Bool.and_eq_true, beq_iff_eq] at hc
      rcases hc with ⟨rfl, hclean⟩
      rcases cleanPwdAttrs_split attrs hclean with ⟨pre, post, rfl, hpre⟩
      show InputShape ('<' :: "input".data ++
        renderAttrs (pre ++ ("type", "password") :: post) ++ '>' ::
          (renderForest ch ++ '<' :: '/' :: "input".data ++ ['>']))
      rw [renderAttrs_append]
      refine ⟨[], renderAttrs pre ++ [' '],
        renderAttrs post ++ ('>' ::
          (renderForest ch ++ '<' :: '/' :: "input".data ++ ['>'])), ?_, ?_⟩
      · intro d hd
        rcases List.mem_append.mp hd with hd | hd
        · exact hpre d hd
        · simp only [List.mem_singleton] at hd
          subst hd
          decide
      · have einput : inputOpenLit = '<' :: "input".data := rfl
        have epwd : pwdTokenLit =
            "type".data ++ ('=' :: '"' :: ("password".data ++ ['"'])) := rfl
        rw [einput, epwd]
        show '<' :: "input".data ++
          (renderAttrs pre ++ (' ' :: "type".data ++ '=' :: '"' :: "password".data
            ++ '"' :: renderAttrs post)) ++ '>' ::
            (renderForest ch ++ '<' :: '/' :: "input".data ++ ['>']) = _
        simp [List.append_assoc]
    · have hsub := containsCleanPwdInputF_shape ch hc
      have he : renderNode (.elem tag attrs ch) =
          ('<' :: tag.data ++ (renderAttrs attrs ++ ['>'])) ++
            (renderForest ch ++ ('<' :: '/' :: tag.data ++ ['>'])) := by
        show '<' :: tag.data ++ renderAttrs attrs ++ '>' ::
          (renderForest ch ++ '<' :: '/' :: tag.data ++ ['>']) = _
        simp [List.append_assoc]
      rw [he]
      exact InputShape_extend _ _ _ hsub

theorem containsCleanPwdInputF_shape (f : HForest)
    (hc : containsCleanPwdInputF f = true) : InputShape (renderForest f) := by
  cases f with
  | nil => simp [containsCleanPwdInputF] at hc
  | cons h t =>
    unfold containsCleanPwdInputF at hc
    rw [Bool.or_eq_true] at hc
    show InputShape (renderNode h ++ renderForest t)
    rcases hc with hc | hc
    · have hs := containsCleanPwdInput_shape h hc
      have := InputShape_extend [] (renderForest t) _ hs
      simpa using this
    · have hs := containsCleanPwdInputF_shape t hc
      have := InputShape_extend (renderNode h) [] _ hs
      simpa using this
end

mutual
theorem hasCleanPwdForm_shape (n : HNode)
    (hc : hasCleanPwdForm n = true) : FormShape (renderNode n) := by
  cases n with
  | text s => simp [hasCleanPwdForm] at hc
  | elem tag attrs ch =>
    unfold hasCleanPwdForm at hc
    rw [Bool.or_eq_true] at hc
    rcases hc with hc | hc
    · rw [Bool.and_eq_true, beq_iff_eq] at hc
      rcases hc with ⟨rfl, hcont⟩
      rcases containsCleanPwdInputF_shape ch hcont with ⟨c, x, d, hx, he⟩
      refine ⟨[], renderAttrs attrs, c, x, d, [], hx, ?_⟩
      have eform : formOpenLit = '<' :: "form".data := rfl
      have eclose : formCloseLit = '<' :: '/' :: "form".data ++ ['>'] := rfl
      rw [eform, eclose]
      show '<' :: "form".data ++ renderAttrs attrs ++ '>' ::
        (renderForest ch ++ '<' :: '/' :: "form".data ++ ['>']) = _
      rw [he]
      simp [List.append_assoc]
    · have hsub := hasCleanPwdFormF_shape ch hc
      have he : renderNode (.elem tag attrs ch) =
          ('<' :: tag.data ++ (renderAttrs attrs ++ ['>'])) ++
            (renderForest ch ++ ('<' :: '/' :: tag.data ++ ['>'])) := by
        show '<' :: tag.data ++ renderAttrs attrs ++ '>' ::
          (renderForest ch ++ '<' :: '/' :: tag.data ++ ['>']) = _
        simp [List.append_assoc]
      rw [he]
      exact FormShape_extend _ _ _ hsub

theorem hasCleanPwdFormF_shape (f : HForest)
    (hc : hasCleanPwdFormF f = true) : FormShape (renderForest f) := by
  cases f with
  | nil => simp [hasCleanPwdFormF] at hc
  | cons h t =>
    unfold hasCleanPwdFormF at hc
    rw [Bool.or_eq_true] at hc
    show FormShape (renderNode h ++ renderForest t)
    rcases hc with hc | hc
    · have hs := hasCleanPwdForm_shape h hc
      have := FormShape_extend [] (renderForest t) _ hs
      simpa using this
    · have hs := hasCleanPwdFormF_shape t hc
      have := FormShape_extend (renderNode h) [] _ hs
      simpa using this
end

theorem hasCleanPwdForm_regex_match (n : HNode)
    (hc : hasCleanPwdForm n = true) :
    tradFormRegexTest (renderNode n) = true := by
  rcases hasCleanPwdForm_shape n hc with ⟨u, v, w, x, y, z, hx, he⟩
  exact tradShape_match _ u v w x y z hx he

/-- C3 counterexample: a document containing a form that encloses a password
input — but whose input tag carries an earlier attribute value with a `>` —
yields no component at all: the regex's `[^>]*` gap cannot cross the `>`
inside the quoted value, and no sign-in keyword occurs. -/
theorem pwd_form_no_traditional_counterexample :
    hasPwdForm (.elem "html" []
      (.cons (.elem "form" []
        (.cons (.elem "input" [("onclick", "a>b"), ("type", "password")] .nil)
          .nil)) .nil)) = true ∧
    (runPatternDetection (fun _ => none) (fun _ => "") false
      (renderNode (.elem "html" []
        (.cons (.elem "form" []
          (.cons (.elem "input" [("onclick", "a>b"), ("type", "password")] .nil)
            .nil)) .nil)))
      "https://example.test").components = [] :=
  ⟨by decide, by decide⟩

/-- C3 amended: for every document containing a `form` element that encloses
an input of type password with no `>` character in the input tag before its
`type="password"` attribute (in particular, in no earlier attribute value),
the pattern-matching detector, run on the document's serialization, emits at
least one component of type traditional. -/
theorem runPatternDetection_traditional_on_clean_pwd_form
    (trySel : String → Option String) (fb : AuthComponent → String)
    (timedOut : Bool) (url : String) (doc : HNode)
    (hform : hasCleanPwdForm doc = true) :
    ∃ c ∈ (runPatternDetection trySel fb timedOut (renderNode doc) url).components,
      c.type = "traditional" := by
  have htest := hasCleanPwdForm_regex_match doc hform
  have hcand : patternCandidates (renderNode doc) =
      ({ type := "traditional",
         details := { fields := some ["email", "password"],
                      playwrightSelector := some "form:has(input[type=\"password\"])" } }
        : AuthComponent) :: (patternCandidates (renderNode doc)).tail := by
    unfold patternCandidates
    rw [htest]
    simp
  rcases extractSnippets_is_map trySel fb timedOut
    (patternCandidates (renderNode doc)) with ⟨g, hmap, hpres⟩
  refine ⟨g { type := "traditional",
              details := { fields := some ["email", "password"],
                           playwrightSelector :=
                             some "form:has(input[type=\"password\"])" } },
    ?_, by rw [(hpres _).1]⟩
  show _ ∈ dedupGo [] (extractSnippetsFromPage trySel fb timedOut
    (patternCandidates (renderNode doc)))
  rw [hmap, hcand, List.map_cons]
  simp only [dedupGo, List.contains_nil, Bool.false_eq_true, if_false]
  exact List.mem_cons_self _ _

/-- Witness for C3 amended: a form enclosing a password input whose earlier
attribute is `>`-free. -/
theorem runPatternDetection_traditional_on_clean_pwd_form_witness :
    hasCleanPwdForm (.elem "html" []
      (.cons (.elem "form" []
        (.cons (.elem "input" [("name", "pwd"), ("type", "password")] .nil)
          .nil)) .nil)) = true ∧
    (∃ c ∈ (runPatternDetection (fun _ => none) (fun _ => "") false
        (renderNode (.elem "html" []
          (.cons (.elem "form" []
            (.cons (.elem "input" [("name", "pwd"), ("type", "password")] .nil)
              .nil)) .nil)))
        "https://example.test").components,
      c.type = "traditional") :=
  ⟨by decide,
   runPatternDetection_traditional_on_clean_pwd_form (fun _ => none)
     (fun _ => "") false "https://example.test" _ (by decide)⟩
